import Mathlib

/-!
Verification of the Joke-Repo content-generation script (`src/main.js`, two
variants separated in the source dump).  JavaScript strings are embedded as
`List Char`; provider and news-backend calls are embedded by passing their
observable outcomes (the awaited values) as explicit parameters, and
`Math.random`-driven selection by an explicit index parameter.
-/

namespace JokeRepo

/-- Strings of the JavaScript program, embedded as lists of characters. -/
abbrev Str := List Char

/-- Helper for `splitOnSpace`: prepend a character to the first piece of a
split result (`[[c]]` when there is no piece, which never happens). -/
def consHead (c : Char) : List Str → List Str
  | [] => [[c]]
  | w :: ws => (c :: w) :: ws

/-- Embedding of JavaScript `text.split(" ")` (src/main.js line 47): split at
every single space, keeping empty pieces; the empty string yields `[""]`. -/
def splitOnSpace : Str → List Str
  | [] => [[]]
  | c :: cs =>
    if c = ' ' then [] :: splitOnSpace cs
    else consHead c (splitOnSpace cs)

/-- Embedding of JavaScript `String.prototype.trim` (whitespace is stripped
from both ends; modelled with `Char.isWhitespace`).  Trailing whitespace is
removed via `reverse`, then leading whitespace is dropped. -/
def trim (s : Str) : Str :=
  ((s.reverse.dropWhile Char.isWhitespace).reverse).dropWhile Char.isWhitespace

/-- Loop of `wrapText` (src/main.js lines 50-58): `line` is the current line
being accumulated (each consumed word followed by one space), `lines` the
lines pushed so far.  After the loop the residual `line` is pushed when its
trim is non-empty (line 58). -/
def wrapLoop (maxChars : Nat) : List Str → Str → List Str → List Str
  | [], line, lines => if trim line = [] then lines else lines ++ [trim line]
  | w :: ws, line, lines =>
    if (line ++ w).length > maxChars then
      wrapLoop maxChars ws (w ++ [' ']) (lines ++ [trim line])
    else
      wrapLoop maxChars ws (line ++ w ++ [' ']) lines

/-- Embedding of `wrapText(text, maxChars = 90)` (src/main.js lines 46-60). -/
def wrapText (text : Str) (maxChars : Nat := 90) : List Str :=
  wrapLoop maxChars (splitOnSpace text) [] []

/-- Words of a list joined with single spaces (the "rejoined with single
spaces" reading used by the spec's round-trip property). -/
def sjoin : List Str → Str
  | [] => []
  | [w] => w
  | w :: ws => w ++ ' ' :: sjoin ws

/-- Each word followed by one space and concatenated: the exact shape of the
`line` accumulator of `wrapText` after consuming those words. -/
def glue : List Str → Str
  | [] => []
  | w :: ws => w ++ ' ' :: glue ws

/-- Modelled from the spec: "the input normalized to single spaces between
words" — the non-empty space-separated pieces of the input, rejoined with
single spaces. -/
def normSingleSpace (s : Str) : Str :=
  sjoin ((splitOnSpace s).filter (fun w => !w.isEmpty))

/-- A word in the sense of the wrap contract: non-empty and containing no
whitespace character. -/
def cleanWord (w : Str) : Prop :=
  w ≠ [] ∧ ∀ c ∈ w, ¬ c.isWhitespace

instance (w : Str) : Decidable (cleanWord w) := by
  unfold cleanWord; infer_instance

/-- Embedding of one global single-character replacement
`s.replace(/c/g, rep)` as used by `escapeSvg`. -/
def replaceAll (c : Char) (rep : Str) : Str → Str
  | [] => []
  | d :: s => (if d = c then rep else [d]) ++ replaceAll c rep s

/-- Embedding of `escapeSvg` (src/main.js lines 42-44): replace `&` by
`&amp;`, then `<` by `&lt;`, then `>` by `&gt;`. -/
def escapeSvg (s : Str) : Str :=
  replaceAll '>' "&gt;".toList
    (replaceAll '<' "&lt;".toList (replaceAll '&' "&amp;".toList s))

/-- Per-character view of `escapeSvg` (proved equal to it below). -/
def escChar (d : Char) : Str :=
  if d = '&' then "&amp;".toList
  else if d = '<' then "&lt;".toList
  else if d = '>' then "&gt;".toList
  else [d]

/-- Checks that every `&` in a string begins one of the entities `&amp;`,
`&lt;`, `&gt;` — i.e. that the string has no raw ampersand. -/
def noRawAmp : Str → Bool
  | [] => true
  | c :: rest =>
    if c = '&' then
      match rest with
      | 'a' :: 'm' :: 'p' :: ';' :: t => noRawAmp t
      | 'l' :: 't' :: ';' :: t => noRawAmp t
      | 'g' :: 't' :: ';' :: t => noRawAmp t
      | _ => false
    else noRawAmp rest

/-- Decimal rendering of a number interpolated into the template. -/
def natStr (n : Nat) : Str := (Nat.repr n).toList

/-- JavaScript `Array.prototype.join(sep)`. -/
def sepJoin (sep : Str) (ls : List Str) : Str := (List.intersperse sep ls).flatten

/-- Embedding of the SVG document built by `writeSvg` (src/main.js lines
62-85, first variant: base height 70; the second variant differs only in
that constant).  The global `dateStr` is passed as a parameter.  Content
lines are escaped with `escapeSvg`; the title and accent are interpolated
verbatim, exactly as in the source.  CSS braces are written `\x7b`/`\x7d`. -/
def svgDocument (title content accent dateStr : Str) : Str :=
  let lines := wrapText content 90
  let height := 70 + lines.length * 22
  let textLines := sepJoin ['\n'] (lines.mapIdx (fun i l =>
    "<text x=\"20\" y=\"".toList ++ natStr (60 + i * 22) ++
      "\" class=\"text\">".toList ++ escapeSvg l ++ "</text>".toList))
  trim ("\n<svg xmlns=\"http://www.w3.org/2000/svg\" width=\"900\" height=\"".toList
    ++ natStr height
    ++ "\">\n  <style>\n    .bg \x7b fill: #0d1117; \x7d\n    .title \x7b font: 700 16px monospace; fill: ".toList
    ++ accent
    ++ "; \x7d\n    .text \x7b font: 14px monospace; fill: #c9d1d9; \x7d\n    .date \x7b font: 12px monospace; fill: #8b949e; \x7d\n  </style>\n  <rect width=\"100%\" height=\"100%\" class=\"bg\"/>\n  <text x=\"20\" y=\"28\" class=\"title\">".toList
    ++ title
    ++ "</text>\n  <text x=\"880\" y=\"28\" text-anchor=\"end\" class=\"date\">".toList
    ++ dateStr
    ++ "</text>\n  ".toList
    ++ textLines
    ++ "\n</svg>\n".toList)

/-- Modelled from the spec: "All user-supplied text must be escaped for the
three reserved markup characters (`&`, `<`, `>`) before embedding" — the
same document but with the title also passed through `escapeSvg`. -/
def svgDocumentEscaped (title content accent dateStr : Str) : Str :=
  svgDocument (escapeSvg title) content accent dateStr

/-- Embedding of `generateGemini` (src/main.js lines 115-124 and 279-288,
identical in both variants).  `configured` is the presence of the Gemini
client; `textField` is the awaited
`res.candidates?.[0]?.content?.parts?.[0]?.text` value. -/
def generateGemini (configured : Bool) (textField : Option Str) :
    Except String Str :=
  if !configured then .error "No GEMINI key"
  else
    match textField.map trim with
    | none => .error "Empty Gemini response"
    | some t =>
      if t = [] then .error "Empty Gemini response"
      else .ok (t.map (fun c => if c = '\n' then ' ' else c))

/-- Embedding of the streaming `generateGroq` (src/main.js lines 93-113,
first variant).  `chunks` are the awaited
`chunk.choices[0]?.delta?.content` values; `result` is their concatenation
with `|| ""` turning an absent content into the empty string.  Note: this
variant checks `!result` without trimming. -/
def generateGroq (configured : Bool) (chunks : List (Option Str)) :
    Except String Str :=
  if !configured then .error "No GROQ key"
  else
    let result := (chunks.map (fun c => c.getD [])).flatten
    if result = [] then .error "Empty Groq response"
    else .ok (result.map (fun c => if c = '\n' then ' ' else c))

/-- Embedding of the non-streaming `generateGroq` (src/main.js lines
290-308, second variant).  `output_text` is the awaited
`data?.output_text` value; this variant trims before the emptiness check. -/
def generateGroqV2 (hasKey : Bool) (output_text : Option Str) :
    Except String Str :=
  if !hasKey then .error "No GROQ key"
  else
    match output_text.map trim with
    | none => .error "Empty Groq response"
    | some t =>
      if t = [] then .error "Empty Groq response"
      else .ok (t.map (fun c => if c = '\n' then ' ' else c))

/-- Outcome of one run of the fallback orchestrator, with trace fields
recording which attempts the try/catch control flow reached. -/
structure FallbackRun where
  result : Option Str
  groqInvoked : Bool
  usedLocal : Bool
  deriving DecidableEq, Repr

/-- Embedding of `generateWithFallback(prompt, localFallback)` (src/main.js
lines 310-324, second variant): try Gemini, on failure try Groq, on failure
return `localFallback[Math.floor(Math.random() * localFallback.length)]`.
The provider calls are embedded by their outcomes and the random choice by
the selected index `randIdx` (JavaScript indexing out of range yields
`undefined`, hence the `Option` result via `get?`). -/
def generateWithFallback (gemini groq : Except String Str)
    (localFallback : List Str) (randIdx : Nat) : FallbackRun :=
  match gemini with
  | .ok t => ⟨some t, false, false⟩
  | .error _ =>
    match groq with
    | .ok t => ⟨some t, true, false⟩
    | .error _ => ⟨localFallback.get? randIdx, true, true⟩

/-- Embedding of `generateWithFallback(prompt)` (src/main.js lines 126-134,
first variant): try Groq; on failure call Gemini when it is configured,
otherwise rethrow.  The boolean component records whether the second
(Gemini) attempt was invoked. -/
def generateWithFallbackV1 (groq : Except String Str)
    (geminiConfigured : Bool) (gemini : Except String Str) :
    Except String Str × Bool :=
  match groq with
  | .ok t => (.ok t, false)
  | .error e => if geminiConfigured then (gemini, true) else (.error e, false)

/-- An article of a news-backend response; `title` may be absent. -/
structure Article where
  title : Option Str
  deriving DecidableEq, Repr

/-- A parsed news-backend response body; the `articles` key may be absent. -/
structure NewsResponse where
  articles : Option (List Article)
  deriving DecidableEq, Repr

/-- Embedding of the optional chain `data?.articles?.[0]?.title`
(src/main.js lines 142 and 150). -/
def firstTitle (data : Option NewsResponse) : Option Str :=
  ((data.bind (fun d => d.articles)).bind (fun a => a.head?)).bind
    (fun a => a.title)

/-- Embedding of `fetchNewsAPI` (src/main.js lines 137-143): throw when the
credential is absent, otherwise return `data?.articles?.[0]?.title` of the
awaited parsed response (network and JSON-parse failures, which would
throw, are outside this model). -/
def fetchNewsAPI (hasKey : Bool) (data : Option NewsResponse) :
    Except String (Option Str) :=
  if !hasKey then .error "No NewsAPI" else .ok (firstTitle data)

/-- Embedding of `fetchGNews` (src/main.js lines 145-151), identical to
`fetchNewsAPI` up to credential and URL. -/
def fetchGNews (hasKey : Bool) (data : Option NewsResponse) :
    Except String (Option Str) :=
  if !hasKey then .error "No GNews" else .ok (firstTitle data)

/-- Embedding of `CATEGORY_ROTATION` (src/main.js lines 23-31). -/
def CATEGORY_ROTATION : List String :=
  ["business", "entertainment", "general", "health", "science", "sports",
    "technology"]

/-- JavaScript `Date.prototype.getDay` (0 = Sunday … 6 = Saturday) for a day
counted from the epoch 1970-01-01, which was a Thursday (`getDay` 4). -/
def getDay (daysSinceEpoch : Nat) : Nat := (daysSinceEpoch + 4) % 7

/-- Embedding of `CATEGORY_ROTATION[today.getDay()]` (src/main.js line 32);
JavaScript indexing yields `undefined` out of range, hence `get?`. -/
def categoryOn (daysSinceEpoch : Nat) : Option String :=
  CATEGORY_ROTATION.get? (getDay daysSinceEpoch)

end JokeRepo

namespace JokeRepo

/-! ### Helper lemmas about `trim` -/

theorem length_dropWhile_le {α : Type _} (p : α → Bool) (l : List α) :
    (l.dropWhile p).length ≤ l.length := by
  induction l with
  | nil => simp
  | cons a t ih =>
    by_cases h : p a
    · rw [List.dropWhile_cons_of_pos h]
      exact Nat.le_succ_of_le ih
    · rw [List.dropWhile_cons_of_neg h]

theorem dropWhile_eq_self_of_head {α : Type _} (p : α → Bool) (l : List α)
    (h : ∀ c ∈ l.head?, ¬ p c) : l.dropWhile p = l := by
  cases l with
  | nil => rfl
  | cons a t =>
    have ha : ¬ p a := h a (by simp)
    simp [List.dropWhile_cons, ha]

theorem trim_nil : trim [] = [] := rfl

theorem trim_append_space (x : Str) : trim (x ++ [' ']) = trim x := by
  have hsp : (' ').isWhitespace = true := by decide
  simp [trim, List.reverse_append, List.dropWhile_cons, hsp]

theorem length_trim_le (s : Str) : (trim s).length ≤ s.length := by
  have h1 := length_dropWhile_le Char.isWhitespace s.reverse
  have h2 := length_dropWhile_le Char.isWhitespace
    ((s.reverse.dropWhile Char.isWhitespace).reverse)
  unfold trim
  simp only [List.length_reverse] at *
  omega

theorem trim_eq_self_of_ends {s : Str}
    (h1 : ∀ c ∈ s.head?, ¬ c.isWhitespace)
    (h2 : ∀ c ∈ s.getLast?, ¬ c.isWhitespace) : trim s = s := by
  unfold trim
  rw [dropWhile_eq_self_of_head Char.isWhitespace s.reverse (by simpa using h2),
    List.reverse_reverse]
  exact dropWhile_eq_self_of_head _ _ h1

theorem trim_eq_self_of_clean {s : Str}
    (h : ∀ c ∈ s, ¬ c.isWhitespace) : trim s = s :=
  trim_eq_self_of_ends
    (fun c hc => h c (List.mem_of_mem_head? hc))
    (fun c hc => h c (List.mem_of_mem_getLast? hc))

/-! ### Helper lemmas about `sjoin` and `glue` -/

theorem sjoin_cons_of_ne_nil (w : Str) {ws : List Str} (h : ws ≠ []) :
    sjoin (w :: ws) = w ++ ' ' :: sjoin ws := by
  cases ws with
  | nil => exact absurd rfl h
  | cons x xs => rfl

theorem sjoin_append {a b : List Str} (ha : a ≠ []) (hb : b ≠ []) :
    sjoin (a ++ b) = sjoin a ++ ' ' :: sjoin b := by
  induction a with
  | nil => exact absurd rfl ha
  | cons w a' ih =>
    cases a' with
    | nil => simpa using sjoin_cons_of_ne_nil w hb
    | cons x xs =>
      have hne : (x :: xs : List Str) ++ b ≠ [] := by simp
      rw [List.cons_append, sjoin_cons_of_ne_nil w hne,
        sjoin_cons_of_ne_nil w (by simp : (x :: xs : List Str) ≠ []),
        ih (by simp)]
      simp

theorem sjoin_ne_nil {l : List Str} (h : l ≠ []) (hw : ∀ w ∈ l, w ≠ []) :
    sjoin l ≠ [] := by
  cases l with
  | nil => exact absurd rfl h
  | cons w ws =>
    cases ws with
    | nil => exact hw w (by simp)
    | cons x xs =>
      rw [sjoin_cons_of_ne_nil w (by simp)]
      simp

theorem glue_eq {l : List Str} (h : l ≠ []) : glue l = sjoin l ++ [' '] := by
  induction l with
  | nil => exact absurd rfl h
  | cons w ws ih =>
    cases ws with
    | nil => rfl
    | cons x xs =>
      rw [glue, ih (by simp), sjoin_cons_of_ne_nil w (by simp)]
      simp

theorem glue_append (a b : List Str) : glue (a ++ b) = glue a ++ glue b := by
  induction a with
  | nil => rfl
  | cons w a' ih => simp [glue, ih]

theorem sjoin_head {l : List Str} (h : l ≠ [])
    (hc : ∀ w ∈ l, cleanWord w) :
    ∀ c ∈ (sjoin l).head?, ¬ c.isWhitespace := by
  induction l with
  | nil => exact absurd rfl h
  | cons w ws ih =>
    have hw : cleanWord w := hc w (by simp)
    have hwne : w ≠ [] := hw.1
    have hhead : ∀ c ∈ w.head?, ¬ c.isWhitespace :=
      fun c hcm => hw.2 c (List.mem_of_mem_head? hcm)
    cases ws with
    | nil => simpa [sjoin] using hhead
    | cons x xs =>
      rw [sjoin_cons_of_ne_nil w (by simp)]
      intro c hcm
      cases w with
      | nil => exact absurd rfl hwne
      | cons d ds =>
        simp only [List.cons_append, List.head?_cons, Option.mem_some_iff] at hcm
        subst hcm
        exact hhead _ (by simp)

theorem sjoin_getLast {l : List Str} (h : l ≠ [])
    (hc : ∀ w ∈ l, cleanWord w) :
    ∀ c ∈ (sjoin l).getLast?, ¬ c.isWhitespace := by
  induction l with
  | nil => exact absurd rfl h
  | cons w ws ih =>
    have hw : cleanWord w := hc w (by simp)
    cases ws with
    | nil =>
      simpa [sjoin] using
        fun c hcm => hw.2 c (List.mem_of_mem_getLast? hcm)
    | cons x xs =>
      have hne : sjoin (x :: xs) ≠ [] :=
        sjoin_ne_nil (by simp) (fun v hv => (hc v (by simp [hv])).1)
      rw [sjoin_cons_of_ne_nil w (by simp)]
      have hgl : (w ++ ' ' :: sjoin (x :: xs)).getLast?
          = (sjoin (x :: xs)).getLast? := by
        cases hs : sjoin (x :: xs) with
        | nil => exact absurd hs hne
        | cons d ds =>
          rw [List.getLast?_append, List.getLast?_cons_cons]
          cases hg : (d :: ds).getLast? with
          | none => simp at hg
          | some c => simp
      rw [hgl]
      exact ih (by simp) (fun v hv => hc v (by simp [hv]))

theorem trim_glue {l : List Str} (h : l ≠ []) (hc : ∀ w ∈ l, cleanWord w) :
    trim (glue l) = sjoin l := by
  rw [glue_eq h, trim_append_space]
  exact trim_eq_self_of_ends (sjoin_head h hc) (sjoin_getLast h hc)

theorem sjoin_map_sjoin {bs : List (List Str)} (h : ∀ b ∈ bs, b ≠ []) :
    sjoin (bs.map sjoin) = sjoin bs.flatten := by
  induction bs with
  | nil => rfl
  | cons b rest ih =>
    cases rest with
    | nil => simp [sjoin]
    | cons x xs =>
      have hb : b ≠ [] := h b (by simp)
      have hx : x ≠ [] := h x (by simp)
      have hfl : (x :: xs : List (List Str)).flatten ≠ [] := by
        simp only [List.flatten_cons, ne_eq, List.append_eq_nil]
        intro ⟨h1, _⟩
        exact hx h1
      rw [List.map_cons, sjoin_cons_of_ne_nil _ (by simp),
        ih (fun v hv => h v (by simp [hv])),
        show (b :: x :: xs : List (List Str)).flatten
          = b ++ (x :: xs).flatten from rfl,
        sjoin_append hb hfl]

/-! ### Helper lemmas about `splitOnSpace` -/

theorem splitOnSpace_ne_nil (s : Str) : splitOnSpace s ≠ [] := by
  induction s with
  | nil => simp [splitOnSpace]
  | cons c cs ih =>
    by_cases h : c = ' '
    · simp [splitOnSpace, h]
    · cases hsp : splitOnSpace cs with
      | nil => exact absurd hsp ih
      | cons w ws => simp [splitOnSpace, h, hsp, consHead]

theorem sjoin_consHead (c : Char) {l : List Str} (h : l ≠ []) :
    sjoin (consHead c l) = c :: sjoin l := by
  cases l with
  | nil => exact absurd rfl h
  | cons w ws =>
    cases ws with
    | nil => rfl
    | cons x xs =>
      rw [consHead, sjoin_cons_of_ne_nil _ (by simp),
        sjoin_cons_of_ne_nil _ (by simp : (x :: xs : List Str) ≠ [])]
      simp

theorem sjoin_splitOnSpace (s : Str) : sjoin (splitOnSpace s) = s := by
  induction s with
  | nil => rfl
  | cons c cs ih =>
    by_cases h : c = ' '
    · subst h
      rw [show splitOnSpace (' ' :: cs) = [] :: splitOnSpace cs by
        simp [splitOnSpace]]
      rw [sjoin_cons_of_ne_nil _ (splitOnSpace_ne_nil cs), ih]
      rfl
    · rw [show splitOnSpace (c :: cs) = consHead c (splitOnSpace cs) by
        simp [splitOnSpace, h]]
      rw [sjoin_consHead c (splitOnSpace_ne_nil cs), ih]

theorem splitOnSpace_eq_single {s : Str} (h : ∀ c ∈ s, c ≠ ' ') :
    splitOnSpace s = [s] := by
  induction s with
  | nil => rfl
  | cons c cs ih =>
    have hc : c ≠ ' ' := h c (by simp)
    rw [show splitOnSpace (c :: cs) = consHead c (splitOnSpace cs) by
      simp [splitOnSpace, hc]]
    rw [ih (fun d hd => h d (by simp [hd]))]
    rfl

end JokeRepo

namespace JokeRepo

/-! ### The `wrapText` loop: accumulator, block structure, line lengths -/

theorem wrapLoop_acc (m : Nat) (ws : List Str) :
    ∀ (line : Str) (lines : List Str),
      wrapLoop m ws line lines = lines ++ wrapLoop m ws line [] := by
  induction ws with
  | nil =>
    intro line lines
    by_cases h : trim line = []
    · simp [wrapLoop, h]
    · simp [wrapLoop, h]
  | cons w ws' ih =>
    intro line lines
    by_cases g : (line ++ w).length > m
    · simp only [wrapLoop, if_pos g]
      rw [ih (w ++ [' ']) (lines ++ [trim line]),
        ih (w ++ [' ']) ([] ++ [trim line])]
      simp
    · simp only [wrapLoop, if_neg g]
      exact ih _ lines

theorem wrapLoop_blocks (m : Nat) :
    ∀ ws acc : List Str, acc ≠ [] →
      (∀ w ∈ acc, cleanWord w) → (∀ w ∈ ws, cleanWord w) →
      ∃ blocks : List (List Str), blocks ≠ [] ∧ (∀ b ∈ blocks, b ≠ []) ∧
        blocks.flatten = acc ++ ws ∧
        wrapLoop m ws (glue acc) [] = blocks.map sjoin ∧
        ((sjoin acc).length ≤ m → (∀ w ∈ ws, w.length ≤ m) →
          ∀ b ∈ blocks, (sjoin b).length ≤ m) := by
  intro ws
  induction ws with
  | nil =>
    intro acc hne hclean _
    have ht : trim (glue acc) = sjoin acc := trim_glue hne hclean
    have hsne : sjoin acc ≠ [] :=
      sjoin_ne_nil hne (fun w hw => (hclean w hw).1)
    refine ⟨[acc], by simp, by simpa using hne, by simp, ?_, ?_⟩
    · simp [wrapLoop, ht, hsne]
    · intro h1 _ b hb
      simp only [List.mem_singleton] at hb
      subst hb
      exact h1
  | cons w ws' ih =>
    intro acc hne hclean hws
    have hw : cleanWord w := hws w (by simp)
    have hws' : ∀ v ∈ ws', cleanWord v := fun v hv => hws v (by simp [hv])
    by_cases g : (glue acc ++ w).length > m
    · obtain ⟨blocks', hbne, hbnn, hbfl, hbeq, hblen⟩ :=
        ih [w] (by simp) (by simpa using hw) hws'
      refine ⟨acc :: blocks', by simp, ?_, ?_, ?_, ?_⟩
      · intro b hb
        rcases List.mem_cons.mp hb with rfl | hb
        · exact hne
        · exact hbnn b hb
      · simp [hbfl]
      · simp only [wrapLoop, if_pos g]
        rw [wrapLoop_acc m ws' (w ++ [' ']) ([] ++ [trim (glue acc)]),
          show (w ++ [' '] : Str) = glue [w] from rfl, hbeq,
          trim_glue hne hclean]
        simp
      · intro h1 h2 b hb
        rcases List.mem_cons.mp hb with rfl | hb
        · exact h1
        · exact hblen (by simpa [sjoin] using h2 w (by simp))
            (fun v hv => h2 v (by simp [hv])) b hb
    · have haccw : ∀ v ∈ acc ++ [w], cleanWord v := by
        intro v hv
        rcases List.mem_append.mp hv with hv | hv
        · exact hclean v hv
        · simp only [List.mem_singleton] at hv
          subst hv
          exact hw
      obtain ⟨blocks', hbne, hbnn, hbfl, hbeq, hblen⟩ :=
        ih (acc ++ [w]) (by simp) haccw hws'
      refine ⟨blocks', hbne, hbnn, ?_, ?_, ?_⟩
      · rw [hbfl]
        simp
      · simp only [wrapLoop, if_neg g]
        have harg : glue acc ++ w ++ [' '] = glue (acc ++ [w]) := by
          rw [glue_append]
          simp [glue]
        rw [harg, hbeq]
      · intro h1 h2 b hb
        have hsw : sjoin (acc ++ [w]) = sjoin acc ++ ' ' :: w := by
          rw [sjoin_append hne (by simp)]
          rfl
        have hlen2 : (sjoin (acc ++ [w])).length ≤ m := by
          have hle := Nat.le_of_not_lt g
          have hglen : (glue acc ++ w).length
              = (sjoin acc ++ ' ' :: w).length := by
            rw [glue_eq hne]
            simp
          rw [hsw]
          omega
        exact hblen hlen2 (fun v hv => h2 v (by simp [hv])) b hb

theorem wrapLoop_le (m : Nat) :
    ∀ (ws : List Str) (line : Str) (lines : List Str),
      (∀ w ∈ ws, w.length ≤ m) → (∀ l ∈ lines, l.length ≤ m) →
      (line = [] ∨ ∃ x : Str, line = x ++ [' '] ∧ x.length ≤ m) →
      ∀ l ∈ wrapLoop m ws line lines, l.length ≤ m := by
  intro ws
  induction ws with
  | nil =>
    intro line lines _ hlines hline l hl
    have htl : (trim line).length ≤ m := by
      rcases hline with rfl | ⟨x, rfl, hx⟩
      · simp [trim_nil]
      · rw [trim_append_space]
        exact le_trans (length_trim_le x) hx
    by_cases h : trim line = []
    · simp only [wrapLoop, if_pos h] at hl
      exact hlines l hl
    · simp only [wrapLoop, if_neg h] at hl
      rcases List.mem_append.mp hl with hl | hl
      · exact hlines l hl
      · simp only [List.mem_singleton] at hl
        subst hl
        exact htl
  | cons w ws' ih =>
    intro line lines hws hlines hline l hl
    have hwm : w.length ≤ m := hws w (by simp)
    have hws' : ∀ v ∈ ws', v.length ≤ m := fun v hv => hws v (by simp [hv])
    by_cases g : (line ++ w).length > m
    · simp only [wrapLoop, if_pos g] at hl
      refine ih _ _ hws' ?_ (Or.inr ⟨w, rfl, hwm⟩) l hl
      intro l' hl'
      rcases List.mem_append.mp hl' with h | h
      · exact hlines l' h
      · simp only [List.mem_singleton] at h
        subst h
        rcases hline with rfl | ⟨x, rfl, hx⟩
        · simp [trim_nil]
        · rw [trim_append_space]
          exact le_trans (length_trim_le x) hx
    · simp only [wrapLoop, if_neg g] at hl
      refine ih _ _ hws' hlines (Or.inr ⟨line ++ w, by simp, ?_⟩) l hl
      exact Nat.le_of_not_lt g

theorem wrapText_eq_blocks (text : Str) (m : Nat)
    (hclean : ∀ w ∈ splitOnSpace text, cleanWord w)
    (hhead : ∀ w ∈ (splitOnSpace text).head?, w.length ≤ m) :
    ∃ blocks : List (List Str), (∀ b ∈ blocks, b ≠ []) ∧
      blocks.flatten = splitOnSpace text ∧
      wrapText text m = blocks.map sjoin := by
  cases hsp : splitOnSpace text with
  | nil => exact absurd hsp (splitOnSpace_ne_nil text)
  | cons w0 rest =>
    have hw0len : w0.length ≤ m := hhead w0 (by simp [hsp])
    have hw0 : cleanWord w0 := hclean w0 (by simp [hsp])
    have hrest : ∀ v ∈ rest, cleanWord v :=
      fun v hv => hclean v (by simp [hsp, hv])
    obtain ⟨blocks, _, hbnn, hbfl, hbeq, _⟩ :=
      wrapLoop_blocks m rest [w0] (by simp) (by simp [hw0]) hrest
    refine ⟨blocks, hbnn, by simp [hbfl, hsp], ?_⟩
    unfold wrapText
    rw [hsp]
    simp only [wrapLoop, List.nil_append]
    rw [if_neg (by simpa using Nat.not_lt.mpr hw0len),
      show (w0 ++ [' '] : Str) = glue [w0] from rfl, hbeq]

end JokeRepo

namespace JokeRepo

/-! ### Claims about `wrapText` -/

/-- C1, counterexample: for the input `"a  b"` (consecutive spaces), the
lines of `wrapText` rejoined with single spaces give back `"a  b"` itself,
not the single-spaced normalization `"a b"`: the claimed identity fails on
inputs with consecutive spaces. -/
theorem c1_counterexample :
    sjoin (wrapText "a  b".toList 90) ≠ normSingleSpace "a  b".toList ∧
    sjoin (wrapText "a  b".toList 90) = "a  b".toList := by
  constructor
  · decide
  · decide

/-- C1 (amended): when the input text is a single-space-separated sequence
of non-empty whitespace-free words whose first word is no longer than the
width, rejoining the `wrapText` lines with single spaces reproduces the
input text (which coincides with its single-space normalization).  For
general inputs the round-trip fails: runs of spaces are kept verbatim
inside a line, and an over-long first word produces a leading empty line. -/
theorem c1_amended (text : Str) (maxChars : Nat)
    (hclean : ∀ w ∈ splitOnSpace text, cleanWord w)
    (hhead : ∀ w ∈ (splitOnSpace text).head?, w.length ≤ maxChars) :
    sjoin (wrapText text maxChars) = text := by
  obtain ⟨blocks, hnn, hfl, heq⟩ := wrapText_eq_blocks text maxChars hclean hhead
  rw [heq, sjoin_map_sjoin hnn, hfl, sjoin_splitOnSpace]

/-- Witness for `c1_amended` at the concrete input `"ab c"`, width 90. -/
theorem c1_amended_witness :
    (∀ w ∈ splitOnSpace "ab c".toList, cleanWord w) ∧
    sjoin (wrapText "ab c".toList 90) = "ab c".toList :=
  ⟨by decide, c1_amended "ab c".toList 90 (by decide) (by decide)⟩

/-- C7: when no word of the input is longer than the width, every line
produced by `wrapText` has length at most the width (lines carry no
trailing space: it is trimmed away), and — for input consisting of
whitespace-free non-empty words — the lines are exactly the single-space
joins of a partition of the word sequence into contiguous blocks, so no
word is ever split across lines. -/
theorem c7_wrap_contract (text : Str) (maxChars : Nat)
    (hlen : ∀ w ∈ splitOnSpace text, w.length ≤ maxChars) :
    (∀ l ∈ wrapText text maxChars, l.length ≤ maxChars) ∧
    ((∀ w ∈ splitOnSpace text, cleanWord w) →
      ∃ blocks : List (List Str), blocks.flatten = splitOnSpace text ∧
        wrapText text maxChars = blocks.map sjoin) := by
  constructor
  · intro l hl
    exact wrapLoop_le maxChars (splitOnSpace text) [] [] hlen (by simp)
      (Or.inl rfl) l hl
  · intro hclean
    obtain ⟨blocks, _, hfl, heq⟩ := wrapText_eq_blocks text maxChars hclean
      (fun w hw => hlen w (List.mem_of_mem_head? hw))
    exact ⟨blocks, hfl, heq⟩

/-- Witness for `c7_wrap_contract` at the concrete input `"ab c"`, width 2
(the input wraps into the two lines `"ab"` and `"c"`). -/
theorem c7_wrap_contract_witness :
    (∀ l ∈ wrapText "ab c".toList 2, l.length ≤ 2) ∧
    ((∀ w ∈ splitOnSpace "ab c".toList, cleanWord w) →
      ∃ blocks : List (List Str), blocks.flatten = splitOnSpace "ab c".toList ∧
        wrapText "ab c".toList 2 = blocks.map sjoin) :=
  c7_wrap_contract "ab c".toList 2 (by decide)

/-- C9: `wrapText` on the empty string returns the empty sequence of lines,
for every width. -/
theorem c9_empty_input (maxChars : Nat) : wrapText [] maxChars = [] := by
  have h : trim [' '] = [] := by decide
  simp [wrapText, splitOnSpace, wrapLoop, h]

/-- C10: whenever the first word of the input is longer than the width, the
first line emitted by `wrapText` is the empty string; in particular a
single word `w` longer than the width yields exactly the two lines
`["", w]`, not `[w]`. -/
theorem c10_long_first_word (maxChars : Nat) :
    (∀ (text w0 : Str), (splitOnSpace text).head? = some w0 →
      maxChars < w0.length → (wrapText text maxChars).head? = some []) ∧
    (∀ w : Str, cleanWord w → maxChars < w.length →
      wrapText w maxChars = [[], w]) := by
  constructor
  · intro text w0 hhead hlen
    cases hsp : splitOnSpace text with
    | nil => exact absurd hsp (splitOnSpace_ne_nil text)
    | cons v rest =>
      rw [hsp] at hhead
      simp only [List.head?_cons, Option.some_inj] at hhead
      subst hhead
      unfold wrapText
      rw [hsp]
      simp only [wrapLoop, List.nil_append]
      rw [if_pos (by simpa using hlen), wrapLoop_acc]
      simp [trim_nil]
  · intro w hw hlen
    have hsp : splitOnSpace w = [w] := splitOnSpace_eq_single (by
      intro c hc hceq
      subst hceq
      exact hw.2 _ hc (by decide))
    have ht : trim (w ++ [' ']) = w := by
      rw [trim_append_space]
      exact trim_eq_self_of_clean hw.2
    unfold wrapText
    rw [hsp]
    simp only [wrapLoop, List.nil_append]
    rw [if_pos (by simpa using hlen)]
    simp [wrapLoop, trim_nil, ht, hw.1]

/-- Witness for `c10_long_first_word`: with width 2, `"abc d"` starts with
an empty line, and the single over-long word `"abc"` wraps to `["", "abc"]`. -/
theorem c10_long_first_word_witness :
    (wrapText "abc d".toList 2).head? = some [] ∧
    wrapText "abc".toList 2 = [[], "abc".toList] :=
  ⟨(c10_long_first_word 2).1 "abc d".toList "abc".toList (by decide) (by decide),
   (c10_long_first_word 2).2 "abc".toList (by decide) (by decide)⟩

end JokeRepo

namespace JokeRepo

/-! ### Claims about the fallback orchestrator (C3, C4) -/

/-- C3: with a non-empty local fallback list (the random index is within
bounds, as `Math.floor(Math.random() * length)` always is for a non-empty
array), the orchestrator always returns a value; when both remote attempts
error the value is an element of the local list, and for the singleton list
`["X"]` it is exactly `"X"`. -/
theorem c3_fallback_total (gemini groq : Except String Str)
    (lf : List Str) (r : Nat) (hr : r < lf.length) :
    ((generateWithFallback gemini groq lf r).result.isSome = true) ∧
    (∀ eg eq t, gemini = .error eg → groq = .error eq →
      (generateWithFallback gemini groq lf r).result = some t → t ∈ lf) ∧
    (∀ eg eq x, gemini = .error eg → groq = .error eq → lf = [x] →
      (generateWithFallback gemini groq lf r).result = some x) := by
  refine ⟨?_, ?_, ?_⟩
  · cases gemini with
    | ok t => rfl
    | error e =>
      cases groq with
      | ok t => rfl
      | error e2 =>
        simp only [generateWithFallback]
        rw [List.get?_eq_get hr]
        rfl
  · intro eg eq t hg hq ht
    subst hg
    subst hq
    simp only [generateWithFallback] at ht
    exact List.get?_mem ht
  · intro eg eq x hg hq hlf
    subst hg
    subst hq
    subst hlf
    simp only [generateWithFallback]
    have hr0 : r = 0 := by
      simp only [List.length_singleton] at hr
      omega
    subst hr0
    rfl

/-- Witness for `c3_fallback_total`: both remotes fail and the local list is
`["X"]`; the orchestrator returns `"X"`. -/
theorem c3_fallback_total_witness :
    ((generateWithFallback (.error "boom") (.error "down") ["X".toList] 0).result.isSome
      = true) ∧
    (∀ eg eq t, (Except.error "boom" : Except String Str) = .error eg →
      (Except.error "down" : Except String Str) = .error eq →
      (generateWithFallback (.error "boom") (.error "down") ["X".toList] 0).result
        = some t → t ∈ ["X".toList]) ∧
    (∀ eg eq x, (Except.error "boom" : Except String Str) = .error eg →
      (Except.error "down" : Except String Str) = .error eq →
      (["X".toList] : List Str) = [x] →
      (generateWithFallback (.error "boom") (.error "down") ["X".toList] 0).result
        = some x) :=
  c3_fallback_total (.error "boom") (.error "down") ["X".toList] 0 (by decide)

/-- C4: in both variants, when the first provider attempt succeeds with text
`a` the orchestrator returns `a` and the second attempt is not invoked: the
run's trace records no second call, and the result does not depend on the
second attempt's outcome (it is universally quantified). -/
theorem c4_first_success (a : Str) (groq gemini : Except String Str)
    (lf : List Str) (r : Nat) (cfg : Bool) :
    generateWithFallback (.ok a) groq lf r = ⟨some a, false, false⟩ ∧
    generateWithFallbackV1 (.ok a) cfg gemini = (.ok a, false) :=
  ⟨rfl, rfl⟩

/-! ### Claims about the news fetchers (C5) -/

/-- C5, counterexample: with the credential present and a response that
parses to zero articles, both fetchers return successfully with no title
(`undefined` in JavaScript) instead of failing: the claimed
`NoHeadlineError` does not exist in the code. -/
theorem c5_counterexample :
    fetchNewsAPI true (some ⟨some []⟩) = .ok none ∧
    fetchGNews true (some ⟨some []⟩) = .ok none := ⟨rfl, rfl⟩

/-- C5 (amended): when the selected backend's response contains zero
articles the fetch does not fail — it returns successfully with no title
(JavaScript `undefined`), which the caller interpolates as the headline;
the fetch fails only when its credential is absent (or the network call
itself throws, outside this model). -/
theorem c5_amended (d : NewsResponse) (hzero : d.articles = some []) :
    fetchNewsAPI true (some d) = .ok none ∧
    fetchGNews true (some d) = .ok none ∧
    fetchNewsAPI false (some d) = .error "No NewsAPI" ∧
    fetchGNews false (some d) = .error "No GNews" := by
  refine ⟨?_, ?_, rfl, rfl⟩
  · simp [fetchNewsAPI, firstTitle, hzero]
  · simp [fetchGNews, firstTitle, hzero]

/-- Witness for `c5_amended` at the zero-article response. -/
theorem c5_amended_witness :
    fetchNewsAPI true (some ⟨some []⟩) = .ok none ∧
    fetchGNews true (some ⟨some []⟩) = .ok none ∧
    fetchNewsAPI false (some ⟨some []⟩) = .error "No NewsAPI" ∧
    fetchGNews false (some ⟨some []⟩) = .error "No GNews" :=
  c5_amended ⟨some []⟩ rfl

/-! ### Claims about the providers' empty-text handling (C6) -/

/-- C6, counterexample: the streaming Groq variant accumulates the
whitespace-only text `" "` — which is empty after trimming — and returns it
as a success instead of failing, because its emptiness check `!result` does
not trim. -/
theorem c6_counterexample :
    generateGroq true [some [' ']] = .ok [' '] ∧ trim [' '] = [] := by
  constructor
  · rfl
  · decide

/-- C6 (amended): `generateGemini` (both variants) and the non-streaming
`generateGroq` trim before the emptiness check, so a present text that is
empty after trimming makes them fail; the streaming `generateGroq` checks
only for the exactly-empty accumulated string and returns any non-empty
(even whitespace-only) text with newlines replaced by spaces. -/
theorem c6_amended (s u : Str) (chunks : List (Option Str))
    (hs : trim s = []) (hu : trim u = [])
    (hres : (chunks.map (fun c => c.getD [])).flatten ≠ []) :
    generateGemini true (some s) = .error "Empty Gemini response" ∧
    generateGroqV2 true (some u) = .error "Empty Groq response" ∧
    generateGroq true chunks =
      .ok (((chunks.map (fun c => c.getD [])).flatten).map
        (fun c => if c = '\n' then ' ' else c)) := by
  refine ⟨?_, ?_, ?_⟩
  · simp [generateGemini, hs]
  · simp [generateGroqV2, hu]
  · simp [generateGroq, hres]

/-- Witness for `c6_amended`: whitespace-only Gemini and Groq-v2 texts fail,
while the streaming Groq variant returns the non-empty chunk text. -/
theorem c6_amended_witness :
    generateGemini true (some [' ']) = .error "Empty Gemini response" ∧
    generateGroqV2 true (some ['\t']) = .error "Empty Groq response" ∧
    generateGroq true [some ['h', 'i']] =
      .ok ((([some ['h', 'i']].map (fun c => c.getD [])).flatten).map
        (fun c => if c = '\n' then ' ' else c)) :=
  c6_amended [' '] ['\t'] [some ['h', 'i']] (by decide) (by decide) (by decide)

/-! ### Claim about the category rotation (C8) -/

/-- C8: the selected news category is a pure function of the date through
the day-of-week index into the fixed seven-element rotation: on a Sunday
(`getDay` 0) it is the first entry `"business"`, and any seven consecutive
days select the seven categories exactly once (the values are a permutation
of the rotation). -/
theorem c8_category_rotation (d : Nat) :
    (getDay d = 0 → categoryOn d = some "business") ∧
    ((List.range 7).map (fun i => categoryOn (d + i))).Perm
      (CATEGORY_ROTATION.map some) := by
  constructor
  · intro h
    simp [categoryOn, h, CATEGORY_ROTATION]
  · have key : ∀ i, categoryOn (d + i) = categoryOn (d % 7 + i) := by
      intro i
      unfold categoryOn getDay
      congr 1
      omega
    simp only [key]
    obtain ⟨r, hrlt, hreq⟩ : ∃ r, r < 7 ∧ d % 7 = r :=
      ⟨d % 7, Nat.mod_lt _ (by omega), rfl⟩
    simp only [hreq]
    rcases r with _ | _ | _ | _ | _ | _ | _ | n
    · exact List.isPerm_iff.mp (by decide)
    · exact List.isPerm_iff.mp (by decide)
    · exact List.isPerm_iff.mp (by decide)
    · exact List.isPerm_iff.mp (by decide)
    · exact List.isPerm_iff.mp (by decide)
    · exact List.isPerm_iff.mp (by decide)
    · exact List.isPerm_iff.mp (by decide)
    · omega

/-- Witness for `c8_category_rotation` at day 3 since the epoch
(1970-01-04, a Sunday): the category is `"business"`, and the following
seven days cover all seven categories. -/
theorem c8_category_rotation_witness :
    categoryOn 3 = some "business" ∧
    ((List.range 7).map (fun i => categoryOn (3 + i))).Perm
      (CATEGORY_ROTATION.map some) :=
  ⟨(c8_category_rotation 3).1 rfl, (c8_category_rotation 3).2⟩

end JokeRepo

namespace JokeRepo

/-! ### Lemmas about `escapeSvg` and the rendered document (C2) -/

theorem replaceAll_append (c : Char) (rep : Str) (s t : Str) :
    replaceAll c rep (s ++ t) = replaceAll c rep s ++ replaceAll c rep t := by
  induction s with
  | nil => rfl
  | cons d s' ih => simp [replaceAll, ih]

theorem escapeSvg_nil : escapeSvg [] = [] := rfl

theorem escapeSvg_cons (d : Char) (s : Str) :
    escapeSvg (d :: s) = escChar d ++ escapeSvg s := by
  unfold escapeSvg
  rw [show replaceAll '&' "&amp;".toList (d :: s)
      = (if d = '&' then "&amp;".toList else [d])
        ++ replaceAll '&' "&amp;".toList s from rfl,
    replaceAll_append, replaceAll_append]
  by_cases h1 : d = '&'
  · subst h1
    rw [if_pos rfl,
      show replaceAll '<' "&lt;".toList "&amp;".toList = "&amp;".toList from
        by decide,
      show replaceAll '>' "&gt;".toList "&amp;".toList = "&amp;".toList from
        by decide]
    rfl
  · rw [if_neg h1]
    by_cases h2 : d = '<'
    · subst h2
      rw [show replaceAll '<' "&lt;".toList ['<'] = "&lt;".toList from by decide,
        show replaceAll '>' "&gt;".toList "&lt;".toList = "&lt;".toList from
          by decide]
      simp [escChar]
    · rw [show replaceAll '<' "&lt;".toList [d] = [d] from
        by simp [replaceAll, h2]]
      by_cases h3 : d = '>'
      · subst h3
        rw [show replaceAll '>' "&gt;".toList ['>'] = "&gt;".toList from
          by decide]
        simp [escChar]
      · rw [show replaceAll '>' "&gt;".toList [d] = [d] from
          by simp [replaceAll, h3]]
        simp [escChar, h1, h2, h3]

theorem not_mem_escapeSvg_lt (s : Str) : '<' ∉ escapeSvg s := by
  induction s with
  | nil => simp [escapeSvg_nil]
  | cons d s' ih =>
    rw [escapeSvg_cons]
    intro hmem
    rcases List.mem_append.mp hmem with h | h
    · by_cases h1 : d = '&'
      · subst h1
        exact absurd h (by decide)
      · by_cases h2 : d = '<'
        · subst h2
          exact absurd h (by decide)
        · by_cases h3 : d = '>'
          · subst h3
            exact absurd h (by decide)
          · simp [escChar, h1, h2, h3] at h
            exact h2 h.symm
    · exact ih h

theorem not_mem_escapeSvg_gt (s : Str) : '>' ∉ escapeSvg s := by
  induction s with
  | nil => simp [escapeSvg_nil]
  | cons d s' ih =>
    rw [escapeSvg_cons]
    intro hmem
    rcases List.mem_append.mp hmem with h | h
    · by_cases h1 : d = '&'
      · subst h1
        exact absurd h (by decide)
      · by_cases h2 : d = '<'
        · subst h2
          exact absurd h (by decide)
        · by_cases h3 : d = '>'
          · subst h3
            exact absurd h (by decide)
          · simp [escChar, h1, h2, h3] at h
            exact h3 h.symm
    · exact ih h

theorem noRawAmp_amp (t : Str) :
    noRawAmp ('&' :: 'a' :: 'm' :: 'p' :: ';' :: t) = noRawAmp t := rfl

theorem noRawAmp_ltent (t : Str) :
    noRawAmp ('&' :: 'l' :: 't' :: ';' :: t) = noRawAmp t := rfl

theorem noRawAmp_gtent (t : Str) :
    noRawAmp ('&' :: 'g' :: 't' :: ';' :: t) = noRawAmp t := rfl

theorem noRawAmp_cons_ne (d : Char) (t : Str) (h : d ≠ '&') :
    noRawAmp (d :: t) = noRawAmp t := by
  rw [noRawAmp.eq_def]
  simp only []
  rw [if_neg h]

theorem noRawAmp_escapeSvg (s : Str) : noRawAmp (escapeSvg s) = true := by
  induction s with
  | nil => rfl
  | cons d s' ih =>
    rw [escapeSvg_cons]
    by_cases h1 : d = '&'
    · subst h1
      rw [show (escChar '&' ++ escapeSvg s' : Str)
          = '&' :: 'a' :: 'm' :: 'p' :: ';' :: escapeSvg s' from rfl,
        noRawAmp_amp, ih]
    · by_cases h2 : d = '<'
      · subst h2
        rw [show (escChar '<' ++ escapeSvg s' : Str)
            = '&' :: 'l' :: 't' :: ';' :: escapeSvg s' from rfl,
          noRawAmp_ltent, ih]
      · by_cases h3 : d = '>'
        · subst h3
          rw [show (escChar '>' ++ escapeSvg s' : Str)
              = '&' :: 'g' :: 't' :: ';' :: escapeSvg s' from rfl,
            noRawAmp_gtent, ih]
        · rw [show escChar d = [d] from by simp [escChar, h1, h2, h3],
            List.singleton_append, noRawAmp_cons_ne d _ h1, ih]

theorem escapeSvg_eq_self_of_clean {s : Str}
    (h : ∀ c ∈ s, c ≠ '&' ∧ c ≠ '<' ∧ c ≠ '>') : escapeSvg s = s := by
  induction s with
  | nil => rfl
  | cons d s' ih =>
    obtain ⟨h1, h2, h3⟩ := h d (by simp)
    rw [escapeSvg_cons, show escChar d = [d] from by simp [escChar, h1, h2, h3],
      ih (fun c hc => h c (by simp [hc])), List.singleton_append]

end JokeRepo

namespace JokeRepo

set_option maxRecDepth 100000 in
/-- C2, counterexample: the title is interpolated into the document without
escaping, so a title containing `<` puts a raw `<` into the output: at the
concrete title `"<"` the document differs from its fully-escaped (spec)
form, and it contains exactly one more `<` than the same document with the
harmless title `"x"` — a raw `<` originating from the title, outside the
fixed template markup. -/
theorem c2_counterexample :
    svgDocument "<".toList "hi".toList "#3fb950".toList "2026-10-11".toList
      ≠ svgDocumentEscaped "<".toList "hi".toList "#3fb950".toList
        "2026-10-11".toList ∧
    (svgDocument "<".toList "hi".toList "#3fb950".toList
        "2026-10-11".toList).count '<'
      = (svgDocument "x".toList "hi".toList "#3fb950".toList
          "2026-10-11".toList).count '<' + 1 := by
  constructor
  · decide
  · decide

/-- C2 (amended): the body content is escaped before embedding — every
wrapped content line passes through `escapeSvg`, after which it contains no
`<`, no `>`, and no ampersand outside the three entities — but the title is
embedded verbatim; the document coincides with the fully-escaped (spec)
form exactly when the title contains none of the three reserved
characters, which holds for every title the program passes (fixed literals
such as `"Daily Joke"`). -/
theorem c2_escaping (title content accent dateStr : Str)
    (hclean : ∀ c ∈ title, c ≠ '&' ∧ c ≠ '<' ∧ c ≠ '>') :
    svgDocument title content accent dateStr
      = svgDocumentEscaped title content accent dateStr ∧
    ∀ l ∈ wrapText content 90, '<' ∉ escapeSvg l ∧ '>' ∉ escapeSvg l ∧
      noRawAmp (escapeSvg l) = true := by
  constructor
  · unfold svgDocumentEscaped
    rw [escapeSvg_eq_self_of_clean hclean]
  · intro l _
    exact ⟨not_mem_escapeSvg_lt l, not_mem_escapeSvg_gt l, noRawAmp_escapeSvg l⟩

/-- Witness for `c2_escaping`: the program's own title `"Daily Joke"` with a
content containing all three reserved characters. -/
theorem c2_escaping_witness :
    (svgDocument "Daily Joke".toList "a <b> & c".toList "#3fb950".toList
        "2026-10-11".toList
      = svgDocumentEscaped "Daily Joke".toList "a <b> & c".toList
        "#3fb950".toList "2026-10-11".toList) ∧
    ∀ l ∈ wrapText "a <b> & c".toList 90, '<' ∉ escapeSvg l ∧
      '>' ∉ escapeSvg l ∧ noRawAmp (escapeSvg l) = true :=
  c2_escaping "Daily Joke".toList "a <b> & c".toList "#3fb950".toList
    "2026-10-11".toList (by decide)

end JokeRepo
